import Mathlib

/-!
# Scanalyzer: a verification development for `sample_code/example.cpp`

The repository's source file is a collection of small C++ functions, each seeded with one
known defect.  This file embeds those functions in Lean and proves what each of them does.

Conventions of the embedding:

* a C++ `char` is a Lean `Char`, the terminator `'\0'` is `NUL`; a `std::string` and the bytes
  of a character array are `List Char`;
* a C++ `int` is an `Int` (none of the modelled loops can overflow: the counter stops at its
  bound), an `unsigned int` is a `Nat` reduced modulo `2 ^ 32`;
* a `std::vector<int>` is a `List Int`, `push_back` appends at the end;
* an array cell is an `Option`: `none` is a cell that was never written;
* every access to an array is bounds-checked and yields a `Fault` instead of undefined behaviour;
* the process state that the functions touch (standard input and output, the commands handed
  to `system`, the heap of `new`-allocated blocks) is the explicit record `World`.
-/

namespace Scanalyzer

/-! ## Data model -/

/-- The terminating zero byte of a C string. -/
def NUL : Char := Char.ofNat 0

/-- The line feed written by `std::endl` and recognised by `std::getline`. -/
def newline : Char := Char.ofNat 10

/-- What a bounds-checked execution reports instead of undefined behaviour. -/
inductive Fault where
  | oob_write (index : Int)
  | oob_read (index : Int)
  | bad_array_new_length
  deriving DecidableEq, Repr

deriving instance DecidableEq for Except

/-- Contents of an array of `α`: one optional value per element, `none` when never written. -/
abbrev Block (α : Type) := List (Option α)

/-- Heap of `new int[...]` blocks.  A pointer is an index into the list; the entry is
`some block` while the allocation is live and `none` once it has been released. -/
abbrev Heap := List (Option (Block Int))

/-- The process state visible to the modelled functions. -/
structure World where
  stdin : List Char
  stdout : List Char
  syslog : List (List Char)
  heap : Heap
  deriving DecidableEq, Repr

/-- Number of allocations that are live in a heap. -/
def live_count (h : Heap) : Nat := (h.filter Option.isSome).length

/-- Number of allocations of a heap that have been released. -/
def released_count (h : Heap) : Nat := (h.filter Option.isNone).length

/-! ## Library primitives used by the source -/

/-- `std::string::c_str` as seen by a C function: the bytes up to the first zero byte. -/
def c_str (s : List Char) : List Char := s.takeWhile (fun ch => ch != NUL)

/-- `system(command)`: the command is recorded in the log, the exit status is whatever the
environment `status` answers. -/
def system (status : List Char → Int) (command : List Char) (w : World) : Int × World :=
  (status command, { w with syslog := w.syslog ++ [command] })

/-- `std::cout << text`. -/
def cout (text : List Char) (w : World) : World :=
  { w with stdout := w.stdout ++ text }

/-- `std::getline(std::cin, line)`: the characters before the next line feed; the line feed
itself is consumed and not stored. -/
def getline (w : World) : List Char × World :=
  (w.stdin.takeWhile (fun ch => ch != newline),
   { w with stdin := (w.stdin.dropWhile (fun ch => ch != newline)).tail })

/-- Bounds-checked `array[i] = v`. -/
def array_store {α : Type} (array : Block α) (i : Int) (v : α) : Except Fault (Block α) :=
  if 0 ≤ i ∧ i < array.length then .ok (array.set i.toNat (some v))
  else .error (Fault.oob_write i)

/-- The operator `new int[size]`: a fresh block of `size` unwritten cells is appended to the
heap and its index is the pointer.  A negative size is refused. -/
def new_int_array (size : Int) (w : World) : Except Fault (Nat × World) :=
  if 0 ≤ size then
    .ok (w.heap.length, { w with heap := w.heap ++ [some (List.replicate size.toNat none)] })
  else .error Fault.bad_array_new_length

/-- Bounds-checked `p[i] = v` through a pointer `p` into the heap. -/
def heap_store (p : Nat) (i : Int) (v : Int) (w : World) : Except Fault World :=
  match w.heap[p]? with
  | some (some block) =>
    match array_store block i v with
    | .ok block' => .ok { w with heap := w.heap.set p (some block') }
    | .error f => .error f
  | _ => .error (Fault.oob_write i)

/-- One memory event of `strcpy`. -/
inductive Event where
  | store (index : Nat) (byte : Char)
  | read_past_end (index : Nat)
  deriving DecidableEq, Repr

/-- The events of `strcpy(dest, src)` from offset `k` on, where `src` lists the bytes of the
source object from that offset: `dest[k] = src[k]` for successive `k`, the zero byte being
the last one copied.  A source object that ends before a zero byte is read past its end. -/
def strcpy_events : List Char → Nat → List Event
  | [], k => [Event.read_past_end k]
  | ch :: rest, k =>
    if ch = NUL then [Event.store k ch] else Event.store k ch :: strcpy_events rest (k + 1)

/-- Bounds-checked execution of memory events on the destination array. -/
def replay : List Event → Block Char → Except Fault (Block Char)
  | [], dest => .ok dest
  | Event.store k b :: rest, dest =>
    match array_store dest k b with
    | .ok dest' => replay rest dest'
    | .error f => .error f
  | Event.read_past_end k :: _, _ => .error (Fault.oob_read k)

/-- `strcpy(dest, src)` with bounds-checked accesses. -/
def strcpy (dest : Block Char) (src : List Char) : Except Fault (Block Char) :=
  replay (strcpy_events src 0) dest

/-! ## The functions of `sample_code/example.cpp` -/

/-- `execute_command`: hands `command.c_str()` to `system`, ignores the status and returns a
constant string. -/
def execute_command (status : List Char → Int) (command : List Char) (w : World) :
    List Char × World :=
  let (_, w) := system status (c_str command) w
  ("Command executed".toList, w)

/-- `copy_string`: a bare `strcpy(dest, src)`. -/
def copy_string (dest : Block Char) (src : List Char) : Except Fault (Block Char) :=
  strcpy dest src

/-- Body of the loop of `inefficient_vector_builder`: copy, append, copy back. -/
def inefficient_vector_builder_body (result : List Int) (i : Int) : List Int :=
  let temp := result
  let temp := temp ++ [i]
  let result := temp
  result

/-- The loop `for (int i = 0; i < n; i++)` of `inefficient_vector_builder`, entered at `i`. -/
def inefficient_vector_builder_loop (n : Int) (i : Int) (result : List Int) : List Int :=
  if i < n then
    inefficient_vector_builder_loop n (i + 1) (inefficient_vector_builder_body result i)
  else result
termination_by (n - i).toNat
decreasing_by omega

/-- `inefficient_vector_builder`. -/
def inefficient_vector_builder (n : Int) : List Int :=
  inefficient_vector_builder_loop n 0 []

/-- The direct builder the source's comment asks for: `push_back(i)` for `i = 0 .. n-1`. -/
def direct_vector_builder (n : Int) : List Int :=
  (List.range n.toNat).foldl (fun (result : List Int) (i : Nat) => result ++ [(i : Int)]) []

/-- The loop `for (int i = 0; i < size; i++) arr[i] = i;` of `create_array`, entered at `i`. -/
def create_array_loop (size : Int) (arr : Nat) (i : Int) (w : World) : Except Fault World :=
  if i < size then
    match heap_store arr i i w with
    | .ok w' => create_array_loop size arr (i + 1) w'
    | .error f => .error f
  else .ok w
termination_by (size - i).toNat
decreasing_by omega

/-- `create_array`: allocates, fills and returns the pointer without releasing the block. -/
def create_array (size : Int) (w : World) : Except Fault (Nat × World) :=
  match new_int_array size w with
  | .ok (arr, w1) =>
    match create_array_loop size arr 0 w1 with
    | .ok w2 => .ok (arr, w2)
    | .error f => .error f
  | .error f => .error f

/-- `unused_variables` with the initialiser of `x` left open. -/
def unused_variables_with (x_init : Int) : Int :=
  let x := x_init
  let y := 20
  y

/-- `unused_variables`: the source initialises `x` with 10. -/
def unused_variables : Int := unused_variables_with 10

/-- Control state after a statement of a function returning `ρ`: either execution goes on
to the next statement, or a `return` has fixed the result. -/
inductive Flow (ρ : Type) where
  | running (w : World)
  | returned (value : ρ) (w : World)
  deriving DecidableEq, Repr

/-- Sequencing of statements: nothing runs after a `return`. -/
def Flow.next {ρ : Type} (f : Flow ρ) (stmt : World → Flow ρ) : Flow ρ :=
  match f with
  | .running w => stmt w
  | .returned v w => .returned v w

/-- `unreachable_code`: `return "Result";` followed by an output statement. -/
def unreachable_code (w : World) : Flow (List Char) :=
  (Flow.returned "Result".toList w).next
    (fun w1 => Flow.running (cout [newline] (cout "This will never be executed".toList w1)))

/-- The loop of `memory_inefficiency`, entered at `i`: allocate 100 ints, write the first. -/
def memory_inefficiency_loop (i : Int) (w : World) : Except Fault World :=
  if i < 1000 then
    match new_int_array 100 w with
    | .ok (data, w1) =>
      match heap_store data 0 i w1 with
      | .ok w2 => memory_inefficiency_loop (i + 1) w2
      | .error f => .error f
    | .error f => .error f
  else .ok w
termination_by (1000 - i).toNat
decreasing_by omega

/-- The heap entry that iteration `i` of `memory_inefficiency` leaves behind: a live block of
100 ints of which only the first was written. -/
def leaked_block (i : Int) : Option (Block Int) :=
  some (some i :: List.replicate 99 none)

/-- `memory_inefficiency`. -/
def memory_inefficiency (w : World) : Except Fault World :=
  memory_inefficiency_loop 0 w

/-- Record of one executed iteration of the loop of `out_of_bounds_access`: the index and the
value of its store `array[index] = value`, and whether the store was inside the array. -/
structure Iteration where
  index : Int
  value : Int
  in_bounds : Bool
  deriving DecidableEq, Repr

/-- Body of the loop of `out_of_bounds_access`: `array[i] = i`. -/
def out_of_bounds_access_body (array : Block Int) (i : Int) : Except Fault (Block Int) :=
  array_store array i i

/-- The loop `for (int i = 0; i <= 10; i++)` of `out_of_bounds_access`, entered at `i` with
the iterations executed so far in `log`.  Every iteration that runs is appended to the log;
the run ends with the first store that is out of bounds, or when `i` exceeds 10. -/
def out_of_bounds_access_loop (array : Block Int) (i : Int) (log : List Iteration) :
    List Iteration × Except Fault (Block Int) :=
  if i ≤ 10 then
    match out_of_bounds_access_body array i with
    | .ok array' => out_of_bounds_access_loop array' (i + 1) (log ++ [⟨i, i, true⟩])
    | .error f => (log ++ [⟨i, i, false⟩], .error f)
  else (log, .ok array)
termination_by (11 - i).toNat
decreasing_by omega

/-- `out_of_bounds_access`: the loop run from `i = 0` on the local `int array[10]`; the result
is the list of the iterations executed and how the run ended. -/
def out_of_bounds_access : List Iteration × Except Fault Unit :=
  match out_of_bounds_access_loop (List.replicate 10 none) 0 [] with
  | (log, .ok _) => (log, .ok ())
  | (log, .error f) => (log, .error f)

/-- Conversion of an `int` value to `unsigned int`. -/
def to_unsigned (v : Int) : Nat := (v % (2 ^ 32 : Int)).toNat

/-- Addition of `unsigned int`. -/
def unsigned_add (a b : Nat) : Nat := (a + b) % 2 ^ 32

/-- The local `max` of `integer_overflow`: `unsigned int max = -1;`. -/
def integer_overflow_max : Nat := to_unsigned (-1)

/-- `integer_overflow`: `return max + 1;`. -/
def integer_overflow : Nat :=
  let max := integer_overflow_max
  unsigned_add max (to_unsigned 1)

/-- The opening of `main`: prompt, read one line into `command`, run it. -/
def main_run_command (status : List Char → Int) (w : World) : List Char × World :=
  let w1 := cout "Enter a command to run: ".toList w
  let (command, w2) := getline w1
  execute_command status command w2

/-- The call `copy_string(small_buffer, large_input)` of `main`, where `large_input` lists the
bytes of the block that `std::cin >> large_input` has filled. -/
def main_copy_name (large_input : List Char) : Except Fault (Block Char) :=
  let small_buffer : Block Char := List.replicate 10 none
  copy_string small_buffer large_input

/-- State of the local `int array[10]` of `out_of_bounds_access` once `k` iterations have
stored their index. -/
def array_after (k : Nat) : Block Int :=
  (List.range k).map (fun (j : Nat) => some (j : Int)) ++ List.replicate (10 - k) none

/-- A world with nothing read, written, run or allocated. -/
def World.initial (input : List Char) : World :=
  { stdin := input, stdout := [], syslog := [], heap := [] }

/-! ## Properties -/

/-! ### Helper lemmas -/

theorem c_str_eq_self_iff (s : List Char) : c_str s = s ↔ NUL ∉ s := by
  unfold c_str
  rw [List.takeWhile_eq_self_iff]
  constructor
  · intro h hmem
    have := h NUL hmem
    simp at this
  · intro h x hx
    have hne : x ≠ NUL := fun e => h (e ▸ hx)
    simpa using hne

theorem inefficient_vector_builder_loop_eq (n : Int) (k : Nat) :
    ∀ (i : Int) (result : List Int), (n - i).toNat = k →
      inefficient_vector_builder_loop n i result
        = result ++ (List.range k).map (fun (j : Nat) => i + (j : Int)) := by
  induction k with
  | zero =>
    intro i result h
    rw [inefficient_vector_builder_loop]
    have hi : ¬ i < n := by omega
    simp [hi]
  | succ k ih =>
    intro i result h
    rw [inefficient_vector_builder_loop]
    have hi : i < n := by omega
    rw [if_pos hi, ih (i + 1) _ (by omega), List.range_succ_eq_map]
    simp only [inefficient_vector_builder_body, List.map_cons, List.map_map, List.append_assoc,
      List.singleton_append, Nat.cast_zero, add_zero]
    congr 2
    apply List.map_congr_left
    intro j _
    simp only [Function.comp, Nat.cast_succ]
    omega

theorem push_back_foldl (l : List Nat) (acc : List Int) :
    l.foldl (fun (result : List Int) (i : Nat) => result ++ [(i : Int)]) acc = acc ++ l.map (fun (j : Nat) => (j : Int)) := by
  induction l generalizing acc with
  | nil => simp
  | cons a l ih => simp [ih]

theorem inefficient_vector_builder_eq (n : Int) :
    inefficient_vector_builder n = (List.range n.toNat).map (fun (j : Nat) => (j : Int)) := by
  unfold inefficient_vector_builder
  rw [inefficient_vector_builder_loop_eq n n.toNat 0 [] (by simp)]
  simp

theorem out_of_bounds_access_body_steps :
    ∀ k : Nat, k < 10 →
      out_of_bounds_access_body (array_after k) k = .ok (array_after (k + 1)) := by
  decide

theorem out_of_bounds_access_loop_unfold (array : Block Int) (i : Int) (log : List Iteration) :
    out_of_bounds_access_loop array i log
      = if i ≤ 10 then
          match out_of_bounds_access_body array i with
          | .ok array' => out_of_bounds_access_loop array' (i + 1) (log ++ [⟨i, i, true⟩])
          | .error f => (log ++ [⟨i, i, false⟩], .error f)
        else (log, .ok array) := by
  rw [out_of_bounds_access_loop]

theorem out_of_bounds_access_loop_from (m : Nat) :
    ∀ (k : Nat) (log : List Iteration), k + m = 10 →
      out_of_bounds_access_loop (array_after k) k log
        = (log ++ (List.range m).map (fun (j : Nat) => Iteration.mk (k + j : Nat) (k + j : Nat) true)
            ++ [⟨10, 10, false⟩], .error (Fault.oob_write 10)) := by
  induction m with
  | zero =>
    intro k log hk
    have : k = 10 := by omega
    subst this
    rw [out_of_bounds_access_loop_unfold, if_pos (by decide)]
    simp only [List.range_zero, List.map_nil, List.append_nil]
    rfl
  | succ m ih =>
    intro k log hk
    rw [out_of_bounds_access_loop_unfold, if_pos (by omega),
      out_of_bounds_access_body_steps k (by omega)]
    dsimp only
    rw [show ((k : Int) + 1) = ((k + 1 : Nat) : Int) by push_cast; rfl,
      ih (k + 1) _ (by omega), List.range_succ_eq_map]
    simp [Function.comp, Nat.add_assoc, Nat.add_comm 1]

theorem out_of_bounds_access_eq :
    out_of_bounds_access
      = ((List.range 10).map (fun (k : Nat) => Iteration.mk (k : Int) (k : Int) true)
          ++ [⟨10, 10, false⟩], .error (Fault.oob_write 10)) := by
  unfold out_of_bounds_access
  rw [show (List.replicate 10 none : Block Int) = array_after 0 from rfl,
    show (0 : Int) = ((0 : Nat) : Int) from rfl, out_of_bounds_access_loop_from 10 0 [] rfl]
  simp

theorem strcpy_events_terminated (s tail : List Char) (hs : NUL ∉ s) (k : Nat) :
    strcpy_events (s ++ NUL :: tail) k
      = ((s ++ [NUL]).enumFrom k).map (fun p => Event.store p.1 p.2) := by
  induction s generalizing k with
  | nil => simp [strcpy_events]
  | cons ch s ih =>
    have hch : ch ≠ NUL := fun e => hs (e ▸ List.mem_cons_self _ _)
    have hs' : NUL ∉ s := fun h => hs (List.mem_cons_of_mem _ h)
    simp [strcpy_events, hch, ih hs']

theorem replay_stores (bytes : List Char) (pre rest : Block Char) :
    replay ((bytes.enumFrom pre.length).map (fun p => Event.store p.1 p.2)) (pre ++ rest)
      = if bytes.length ≤ rest.length
        then .ok (pre ++ bytes.map some ++ rest.drop bytes.length)
        else .error (Fault.oob_write ((pre ++ rest).length : Nat)) := by
  induction bytes generalizing pre rest with
  | nil => simp [replay]
  | cons b bytes ih =>
    cases rest with
    | nil => simp [replay, array_store]
    | cons r rest =>
      have hstore : array_store (pre ++ r :: rest) (pre.length : Nat) b
          = .ok ((pre ++ [some b]) ++ rest) := by
        simp [array_store]
      have hih := ih (pre ++ [some b]) rest
      simp only [List.length_append, List.length_singleton] at hih
      simp only [List.enumFrom_cons, List.map_cons, replay, hstore, hih]
      simp [Nat.add_assoc, Nat.add_comm 1]

theorem copy_string_terminated (dest : Block Char) (s tail : List Char) (hs : NUL ∉ s) :
    copy_string dest (s ++ NUL :: tail)
      = if s.length < dest.length
        then .ok ((s ++ [NUL]).map some ++ dest.drop (s.length + 1))
        else .error (Fault.oob_write (dest.length : Nat)) := by
  have h := replay_stores (s ++ [NUL]) [] dest
  simp only [List.length_nil, List.nil_append, List.length_append, List.length_singleton] at h
  unfold copy_string strcpy
  rw [strcpy_events_terminated s tail hs 0, h]
  simp [Nat.succ_le_iff]

theorem heap_store_last (w : World) (h : Heap) (filled rest : Block Int) (r : Option Int)
    (v : Int) (hw : w.heap = h ++ [some (filled ++ r :: rest)]) :
    heap_store h.length (filled.length : Nat) v w
      = .ok { w with heap := h ++ [some ((filled ++ [some v]) ++ rest)] } := by
  simp [heap_store, hw, array_store]

theorem create_array_loop_fills (m : Nat) :
    ∀ (w : World) (h : Heap) (filled rest : Block Int), rest.length = m →
      w.heap = h ++ [some (filled ++ rest)] →
      create_array_loop ((filled.length + m : Nat) : Int) h.length (filled.length : Nat) w
        = .ok { w with heap := h ++ [some (filled
            ++ (List.range m).map (fun (j : Nat) => some ((filled.length + j : Nat) : Int)))] } := by
  induction m with
  | zero =>
    intro w h filled rest hm hw
    rw [create_array_loop, if_neg (by simp)]
    have : rest = [] := List.length_eq_zero.mp hm
    subst this
    cases w
    simp only [List.append_nil] at hw
    simp [← hw]
  | succ m ih =>
    intro w h filled rest hm hw
    cases rest with
    | nil => simp at hm
    | cons r rest =>
      rw [create_array_loop, if_pos (by push_cast; omega), heap_store_last w h filled rest r _ hw]
      have hlen : (filled ++ [some ((filled.length : Nat) : Int)]).length = filled.length + 1 := by
        simp
      have := ih { w with heap := h ++ [some ((filled ++ [some ((filled.length : Nat) : Int)]) ++ rest)] }
        h (filled ++ [some ((filled.length : Nat) : Int)]) rest (by simpa using hm) rfl
      rw [hlen] at this
      simp only [] at this
      rw [show ((filled.length + (m + 1) : Nat) : Int) = ((filled.length + 1 + m : Nat) : Int) by
        congr 1; omega]
      rw [show (((filled.length : Nat) : Int) + 1) = ((filled.length + 1 : Nat) : Int) by
        push_cast; rfl]
      dsimp only
      rw [this, List.range_succ_eq_map]
      simp [Function.comp, Nat.add_assoc, Nat.add_comm 1]

theorem create_array_eq (size : Int) (hsize : 0 ≤ size) (w : World) :
    create_array size w
      = .ok (w.heap.length, { w with heap := w.heap
          ++ [some ((List.range size.toNat).map (fun (j : Nat) => some (j : Int)))] }) := by
  have h := create_array_loop_fills size.toNat
    { w with heap := w.heap ++ [some (List.replicate size.toNat none)] } w.heap []
    (List.replicate size.toNat none) (by simp) rfl
  simp only [List.length_nil, Nat.zero_add, Int.toNat_of_nonneg hsize, Nat.cast_zero,
    List.nil_append] at h
  unfold create_array new_int_array
  rw [if_pos hsize]
  simp only []
  rw [h]

theorem live_count_append (h1 h2 : Heap) :
    live_count (h1 ++ h2) = live_count h1 + live_count h2 := by
  simp [live_count]

theorem released_count_append (h1 h2 : Heap) :
    released_count (h1 ++ h2) = released_count h1 + released_count h2 := by
  simp [released_count]

theorem live_count_map_some {α : Type} (l : List α) (f : α → Block Int) :
    live_count (l.map (fun a => some (f a))) = l.length := by
  induction l with
  | nil => rfl
  | cons a l ih => simpa [live_count] using ih

theorem released_count_map_some {α : Type} (l : List α) (f : α → Block Int) :
    released_count (l.map (fun a => some (f a))) = 0 := by
  simp [released_count]

theorem memory_inefficiency_loop_eq (m : Nat) :
    ∀ (i : Int) (w : World), (1000 - i).toNat = m →
      memory_inefficiency_loop i w
        = .ok { w with heap := w.heap
            ++ (List.range m).map (fun (j : Nat) => leaked_block (i + (j : Int))) } := by
  induction m with
  | zero =>
    intro i w h
    rw [memory_inefficiency_loop, if_neg (by omega)]
    simp
  | succ m ih =>
    intro i w h
    have halloc : new_int_array 100 w
        = .ok (w.heap.length, { w with heap := w.heap ++ [some (List.replicate 100 none)] }) := rfl
    have hstore : heap_store w.heap.length 0 i
          { w with heap := w.heap ++ [some (List.replicate 100 none)] }
        = .ok { w with heap := w.heap ++ [some (some i :: List.replicate 99 none)] } := by
      have := heap_store_last { w with heap := w.heap ++ [some (List.replicate 100 none)] }
        w.heap [] (List.replicate 99 none) none i rfl
      simpa using this
    rw [memory_inefficiency_loop, if_pos (by omega), halloc]
    dsimp only
    rw [hstore]
    dsimp only
    rw [ih (i + 1) _ (by omega), List.range_succ_eq_map]
    simp [Function.comp, add_assoc, add_comm (1 : Int), leaked_block]

/-! ### `execute_command` (C1) -/

/-- C1, as stated, fails on a string with an embedded zero byte: for the command
`ls\0x` the string that reaches `system` is `ls`, not the argument itself. -/
theorem execute_command_nul_counterexample :
    (execute_command (fun _ => 0) ['l', 's', NUL, 'x'] (World.initial [])).2.syslog = [['l', 's']]
    ∧ (execute_command (fun _ => 0) ['l', 's', NUL, 'x'] (World.initial [])).2.syslog
        ≠ (World.initial []).syslog ++ [['l', 's', NUL, 'x']] := by
  constructor <;> decide

/-- C1 (amended): for every exit status function, every string `c` and every world,
`execute_command c` appends exactly one entry to the `system` log, namely `c.c_str()` (the
bytes of `c` before its first zero byte) with no other change or check, leaves the rest of
the world alone and returns the constant `"Command executed"`.  The logged string is `c`
itself exactly when `c` has no zero byte.  Consequently the command that `main` hands to
`system` is the `c_str` of the line it read from standard input, which is the line itself
exactly when the line has no zero byte. -/
theorem execute_command_logs_c_str (status : List Char → Int) (c : List Char) (w : World) :
    execute_command status c w
        = ("Command executed".toList, { w with syslog := w.syslog ++ [c_str c] })
    ∧ (c_str c = c ↔ NUL ∉ c)
    ∧ (main_run_command status w).2.syslog = w.syslog ++ [c_str (getline w).1]
    ∧ (c_str (getline w).1 = (getline w).1 ↔ NUL ∉ (getline w).1) :=
  ⟨rfl, c_str_eq_self_iff c, rfl, c_str_eq_self_iff _⟩

/-! ### `copy_string` (C2) -/

/-- C2: let the source hold a string `s` without zero byte, then the zero byte (and anything
after it).  For a destination of any capacity, `copy_string` issues exactly `|s| + 1` stores,
the bytes of `s` and then the zero byte, at offsets `0, 1, ..., |s|`.  Under bounds checking it
succeeds iff `|s|` is less than the capacity, and the destination then holds `s`, the zero
byte and its old cells beyond; it faults with an out-of-bounds write iff `|s|` is at least the
capacity, the first such write being at offset `capacity`.  The call of `main` on the 10-byte
`small_buffer` is out of bounds for every input of length at least 10. -/
theorem copy_string_overflows_iff (dest : Block Char) (s tail : List Char) (hs : NUL ∉ s) :
    (strcpy_events (s ++ NUL :: tail) 0
        = ((s ++ [NUL]).enumFrom 0).map (fun p => Event.store p.1 p.2)
      ∧ (strcpy_events (s ++ NUL :: tail) 0).length = s.length + 1)
    ∧ (s.length < dest.length →
        copy_string dest (s ++ NUL :: tail)
          = .ok ((s ++ [NUL]).map some ++ dest.drop (s.length + 1)))
    ∧ (dest.length ≤ s.length →
        copy_string dest (s ++ NUL :: tail) = .error (Fault.oob_write (dest.length : Nat)))
    ∧ ((∃ d, copy_string dest (s ++ NUL :: tail) = .ok d) ↔ s.length < dest.length)
    ∧ ((∃ i, copy_string dest (s ++ NUL :: tail) = .error (Fault.oob_write i))
        ↔ dest.length ≤ s.length)
    ∧ (10 ≤ s.length → main_copy_name (s ++ NUL :: tail) = .error (Fault.oob_write 10)) := by
  have hev := strcpy_events_terminated s tail hs 0
  have hcopy := copy_string_terminated dest s tail hs
  refine ⟨⟨hev, by rw [hev]; simp⟩, ?_, ?_, ?_, ?_, ?_⟩
  · intro h; rw [hcopy, if_pos h]
  · intro h; rw [hcopy, if_neg (by omega)]
  · rw [hcopy]
    by_cases h : s.length < dest.length
    · simp [h]
    · simp [h]
  · rw [hcopy]
    by_cases h : s.length < dest.length
    · simp [h]
    · simp only [h, if_false]
      constructor
      · intro _; omega
      · intro _; exact ⟨_, rfl⟩
  · intro h
    unfold main_copy_name
    rw [copy_string_terminated _ s tail hs, if_neg (by simp; omega)]
    simp

/-- C2 at concrete inputs: `"hi"` fits three bytes, overflows two, and a ten-character name
overflows the `small_buffer` of `main`. -/
theorem copy_string_witness :
    copy_string (List.replicate 3 none) ['h', 'i', NUL] = .ok [some 'h', some 'i', some NUL]
    ∧ copy_string (List.replicate 2 none) ['h', 'i', NUL] = .error (Fault.oob_write 2)
    ∧ main_copy_name ("0123456789".toList ++ [NUL]) = .error (Fault.oob_write 10) :=
  ⟨(copy_string_overflows_iff (List.replicate 3 none) ['h', 'i'] [] (by decide)).2.1 (by decide),
   (copy_string_overflows_iff (List.replicate 2 none) ['h', 'i'] [] (by decide)).2.2.1
     (by decide),
   (copy_string_overflows_iff [] "0123456789".toList [] (by decide)).2.2.2.2.2 (by decide)⟩

/-! ### `out_of_bounds_access` (C3) -/

/-- C3: `out_of_bounds_access` runs the loop from `i = 0` on the unwritten 10-element array,
and each iteration that the loop executes is the bounds-checked store `array[i] = i` followed
by the next iteration at `i + 1`, for every `i <= 10`.  The run executes exactly eleven
iterations, with `i = 0, 1, ..., 10` in this order: the stores of the first ten, at indices 0
to 9, are in bounds and lead from the state `array_after k` to `array_after (k + 1)`; the store
of the eleventh, at index 10, is out of bounds.  The function ends in exactly that fault, at
the eleventh iteration and at no earlier one. -/
theorem out_of_bounds_access_faults_at_ten :
    (∀ (array : Block Int) (i : Int), out_of_bounds_access_body array i = array_store array i i)
    ∧ (∀ (array : Block Int) (i : Int) (log : List Iteration),
        out_of_bounds_access_loop array i log
          = if i ≤ 10 then
              match out_of_bounds_access_body array i with
              | .ok array' => out_of_bounds_access_loop array' (i + 1) (log ++ [⟨i, i, true⟩])
              | .error f => (log ++ [⟨i, i, false⟩], .error f)
            else (log, .ok array))
    ∧ array_after 0 = List.replicate 10 none
    ∧ (∀ k : Nat, k < 10 →
        out_of_bounds_access_body (array_after k) k = .ok (array_after (k + 1)))
    ∧ out_of_bounds_access_body (array_after 10) 10 = .error (Fault.oob_write 10)
    ∧ (∀ (k : Nat) (log : List Iteration), k ≤ 10 →
        out_of_bounds_access_loop (array_after k) k log
          = (log ++ (List.range (10 - k)).map
                (fun (j : Nat) => Iteration.mk (k + j : Nat) (k + j : Nat) true)
              ++ [⟨10, 10, false⟩], .error (Fault.oob_write 10)))
    ∧ out_of_bounds_access
        = ([⟨0, 0, true⟩, ⟨1, 1, true⟩, ⟨2, 2, true⟩, ⟨3, 3, true⟩, ⟨4, 4, true⟩, ⟨5, 5, true⟩,
            ⟨6, 6, true⟩, ⟨7, 7, true⟩, ⟨8, 8, true⟩, ⟨9, 9, true⟩, ⟨10, 10, false⟩],
           .error (Fault.oob_write 10))
    ∧ out_of_bounds_access.1.length = 11
    ∧ (∀ k : Nat, k < 10 → out_of_bounds_access.1[k]? = some ⟨k, k, true⟩)
    ∧ out_of_bounds_access.1[10]? = some ⟨10, 10, false⟩ := by
  refine ⟨fun _ _ => rfl, out_of_bounds_access_loop_unfold, rfl, out_of_bounds_access_body_steps,
    rfl, fun k log hk => out_of_bounds_access_loop_from (10 - k) k log (by omega), ?_, ?_, ?_, ?_⟩
  · rw [out_of_bounds_access_eq]; rfl
  · rw [out_of_bounds_access_eq]; rfl
  · rw [out_of_bounds_access_eq]; decide
  · rw [out_of_bounds_access_eq]; rfl

/-! ### `memory_inefficiency` (C4) -/

/-- C4: for every world, one call of `memory_inefficiency` succeeds and appends exactly 1000
entries to the heap, one per allocation, each a live block of 100 ints, and changes nothing
else: the earlier allocations are untouched, none is released, standard input, standard
output and the `system` log are as before, and the function returns no value.  The number of
live allocations is therefore exactly 1000 more than before the call. -/
theorem memory_inefficiency_leaks_thousand (w : World) :
    memory_inefficiency w
      = .ok { w with heap := w.heap
          ++ (List.range 1000).map (fun (j : Nat) => leaked_block (j : Int)) }
    ∧ ((List.range 1000).map (fun (j : Nat) => leaked_block (j : Int))).length = 1000
    ∧ (∀ b ∈ (List.range 1000).map (fun (j : Nat) => leaked_block (j : Int)),
        ∃ block : Block Int, b = some block ∧ block.length = 100)
    ∧ live_count (w.heap ++ (List.range 1000).map (fun (j : Nat) => leaked_block (j : Int)))
        = live_count w.heap + 1000
    ∧ released_count (w.heap ++ (List.range 1000).map (fun (j : Nat) => leaked_block (j : Int)))
        = released_count w.heap
    ∧ (∀ p : Nat, p < w.heap.length →
        (w.heap ++ (List.range 1000).map (fun (j : Nat) => leaked_block (j : Int)))[p]?
          = w.heap[p]?) := by
  refine ⟨?_, by simp, ?_, ?_, ?_, fun p hp => List.getElem?_append_left hp⟩
  · unfold memory_inefficiency
    rw [memory_inefficiency_loop_eq 1000 0 w (by decide)]
    simp
  · intro b hb
    obtain ⟨j, -, rfl⟩ := List.mem_map.mp hb
    exact ⟨_, rfl, by simp⟩
  · rw [live_count_append]
    unfold leaked_block
    rw [live_count_map_some]
    simp
  · rw [released_count_append]
    unfold leaked_block
    rw [released_count_map_some]
    simp

/-! ### `unreachable_code` (C5) -/

/-- C5: for every initial world, `unreachable_code` returns `"Result"` and the output stream
(indeed the whole world) is what it was before the call.  The statement after the `return`
is not executed: had it run, the output stream would have grown by its text. -/
theorem unreachable_code_returns_result (w : World) :
    unreachable_code w = Flow.returned "Result".toList w
    ∧ (cout [newline] (cout "This will never be executed".toList w)).stdout
        = w.stdout ++ "This will never be executed".toList ++ [newline]
    ∧ (cout [newline] (cout "This will never be executed".toList w)).stdout ≠ w.stdout := by
  refine ⟨rfl, rfl, ?_⟩
  intro h
  have hlen := congrArg List.length h
  simp [cout] at hlen

/-! ### `unused_variables` (C6) -/

/-- C6: `unused_variables` returns 20, the value of `y`, and the result is the same 20
whatever integer initialises `x`. -/
theorem unused_variables_ignores_x :
    unused_variables = 20 ∧ ∀ x_init : Int, unused_variables_with x_init = 20 :=
  ⟨rfl, fun _ => rfl⟩

/-! ### `integer_overflow` (C7) -/

/-- C7: modulo `2 ^ 32`, the conversion of `-1` gives `max = 2 ^ 32 - 1`, which is the
largest value an `unsigned int` conversion can produce, and `integer_overflow` returns
`(max + 1) mod 2 ^ 32 = 0`. -/
theorem integer_overflow_wraps_to_zero :
    integer_overflow_max = 2 ^ 32 - 1
    ∧ (∀ v : Int, to_unsigned v ≤ integer_overflow_max)
    ∧ integer_overflow = (integer_overflow_max + 1) % 2 ^ 32
    ∧ integer_overflow = 0 := by
  have hmax : integer_overflow_max = 2 ^ 32 - 1 := by decide
  refine ⟨hmax, ?_, by decide, by decide⟩
  intro v
  rw [hmax]
  unfold to_unsigned
  have h1 : v % (2 ^ 32 : Int) < 2 ^ 32 := Int.emod_lt_of_pos v (by norm_num)
  have h2 : 0 ≤ v % (2 ^ 32 : Int) := Int.emod_nonneg v (by norm_num)
  omega

/-! ### `inefficient_vector_builder` (C9) -/

/-- C9: for every `n`, each iteration of `inefficient_vector_builder` (copy to `temp`,
`push_back(i)`, copy back) is `result.push_back(i)`; the function equals the direct builder
that pushes `i` for `i = 0 .. n-1`; it returns `[0, 1, ..., n-1]`, the empty vector when
`n <= 0`; the result has length `max(n, 0)` and its element at index `i` is `i`. -/
theorem inefficient_vector_builder_refines_direct (n : Int) :
    (∀ (result : List Int) (i : Int), inefficient_vector_builder_body result i = result ++ [i])
    ∧ inefficient_vector_builder n = direct_vector_builder n
    ∧ inefficient_vector_builder n = (List.range n.toNat).map (fun (j : Nat) => (j : Int))
    ∧ (n ≤ 0 → inefficient_vector_builder n = [])
    ∧ ((inefficient_vector_builder n).length : Int) = max n 0
    ∧ ∀ i : Nat, (i : Int) < n → (inefficient_vector_builder n)[i]? = some (i : Int) := by
  refine ⟨fun _ _ => rfl, ?_, inefficient_vector_builder_eq n, ?_, ?_, ?_⟩
  · rw [inefficient_vector_builder_eq, direct_vector_builder, push_back_foldl]; simp
  · intro h
    rw [inefficient_vector_builder_eq, Int.toNat_of_nonpos h]; rfl
  · rw [inefficient_vector_builder_eq]
    simp only [List.length_map, List.length_range]
    omega
  · intro i hi
    rw [inefficient_vector_builder_eq]
    have : i < n.toNat := by omega
    simp [List.getElem?_map, List.getElem?_range this]

/-- C9 at concrete inputs: `n = 3` gives `[0, 1, 2]`, `n = -2` gives the empty vector. -/
theorem inefficient_vector_builder_witness :
    (inefficient_vector_builder 3 = direct_vector_builder 3)
    ∧ inefficient_vector_builder 3 = [0, 1, 2]
    ∧ inefficient_vector_builder (-2) = []
    ∧ (inefficient_vector_builder 3)[2]? = some 2 :=
  ⟨(inefficient_vector_builder_refines_direct 3).2.1,
   (inefficient_vector_builder_refines_direct 3).2.2.1.trans (by decide),
   (inefficient_vector_builder_refines_direct (-2)).2.2.2.1 (by decide),
   (inefficient_vector_builder_refines_direct 3).2.2.2.2.2 2 (by decide)⟩

/-! ### `create_array` (C10) -/

/-- C10: for every `size >= 0` and every world, `create_array size` succeeds (no store of its
loop is out of bounds) and returns a pointer to a block that was not allocated before the
call, is live after it, has exactly `size` cells and holds `i` at every index `i < size`.
Every other allocation is untouched, the number of live allocations grows by one and nothing
is released; the world changes in no other way, so the returned pointer is the only place
that holds the new address. -/
theorem create_array_returns_filled_block (size : Int) (hsize : 0 ≤ size) (w : World) :
    ∃ block : Block Int,
      create_array size w = .ok (w.heap.length, { w with heap := w.heap ++ [some block] })
      ∧ w.heap[w.heap.length]? = none
      ∧ (w.heap ++ [some block])[w.heap.length]? = some (some block)
      ∧ (block.length : Int) = size
      ∧ (∀ i : Nat, (i : Int) < size → block[i]? = some (some (i : Int)))
      ∧ (∀ p : Nat, p < w.heap.length → (w.heap ++ [some block])[p]? = w.heap[p]?)
      ∧ live_count (w.heap ++ [some block]) = live_count w.heap + 1
      ∧ released_count (w.heap ++ [some block]) = released_count w.heap := by
  refine ⟨_, create_array_eq size hsize w, by simp, by simp, ?_, ?_, ?_, ?_, ?_⟩
  · simp only [List.length_map, List.length_range]
    omega
  · intro i hi
    have : i < size.toNat := by omega
    simp [List.getElem?_map, List.getElem?_range this]
  · intro p hp
    exact List.getElem?_append_left hp
  · rw [live_count_append]; rfl
  · rw [released_count_append]; rfl

/-- C10 at a concrete input: `create_array(3)` in the empty world yields the block `0, 1, 2`
at address 0. -/
theorem create_array_witness :
    create_array 3 (World.initial [])
      = .ok (0, { World.initial [] with heap := [some [some 0, some 1, some 2]] }) := by
  obtain ⟨block, h, -, -, hlen, hget, -⟩ :=
    create_array_returns_filled_block 3 (by decide) (World.initial [])
  have h0 := hget 0 (by decide)
  have h1 := hget 1 (by decide)
  have h2 := hget 2 (by decide)
  match block, hlen, h0, h1, h2 with
  | [a, b, c], _, h0, h1, h2 =>
    simp only [List.getElem?_cons_zero, List.getElem?_cons_succ, Option.some.injEq] at h0 h1 h2
    subst h0 h1 h2
    exact h

end Scanalyzer
